import Mathlib

/-!
Shallow embedding of the redisrs server core: the RESP wire codec
(src/resp.rs), the list store (src/lists.rs), the stream store
(src/streams.rs), the key-value store and RDB expiry handling
(src/rdb.rs), and the argument-conversion fragments of the command
dispatcher (src/commands.rs).

Byte strings (`Bytes` in the source) are modelled as `List Nat`,
machine integers as `Nat`/`Int` with explicit bounds where the source
behaviour depends on them, and wall-clock / monotonic instants as
explicit `Nat` parameters in milliseconds.  Places where the source
calls `.unwrap()` on user-controlled data (and hence can panic) are
modelled with an explicit `PResult.panicked` value.
-/

/-- Byte strings (`Bytes` in the source) as lists of byte values. -/
abbrev Bs := List Nat

/-- Outcome of a computation that may panic in the source (an `unwrap`
on user-controlled data or an out-of-bounds index). -/
inductive PResult (σ : Type) where
  | panicked
  | ok (a : σ)
deriving DecidableEq

/-- Auxiliary for `natToBytes`: ASCII decimal digits, most significant
first; the first argument is structural fuel and `natToBytes` supplies
enough for any input. -/
def natDigitsAux : Nat → Nat → List Nat
  | 0, _ => []
  | fuel + 1, n => if n < 10 then [48 + n] else natDigitsAux fuel (n / 10) ++ [48 + n % 10]

/-- ASCII decimal encoding of a natural number (`u64::to_string`). -/
def natToBytes (n : Nat) : Bs := natDigitsAux (n + 1) n

/-- ASCII decimal encoding of a signed integer (`i64::to_string`). -/
def intToBytes (i : Int) : Bs :=
  if i < 0 then 45 :: natToBytes (-i).toNat else natToBytes i.toNat

/-- Value of an all-digit byte string accumulated left to right; `none`
as soon as a non-digit appears. -/
def digitsValAux : List Nat → Nat → Option Nat
  | [], acc => some acc
  | d :: rest, acc =>
    if 48 ≤ d ∧ d ≤ 57 then digitsValAux rest (acc * 10 + (d - 48)) else none

/-- Value of a non-empty, all-digit byte string. -/
def digitsVal : Bs → Option Nat
  | [] => none
  | ds => digitsValAux ds 0

/-- Rust `str::parse::<u64>`: an optional leading `+`, then at least one
digit, rejecting values that do not fit in 64 bits. -/
def parseU64 (s : Bs) : Option Nat :=
  let body := match s with
    | 43 :: rest => rest
    | _ => s
  match digitsVal body with
  | some v => if v < 2 ^ 64 then some v else none
  | none => none

/-- Rust `str::parse::<i64>`: an optional sign, then at least one digit,
rejecting values outside the two's-complement 64-bit range. -/
def parseI64 (s : Bs) : Option Int :=
  match s with
  | 43 :: rest => (digitsVal rest).bind fun v =>
      if v ≤ 2 ^ 63 - 1 then some (Int.ofNat v) else none
  | 45 :: rest => (digitsVal rest).bind fun v =>
      if v ≤ 2 ^ 63 then some (-(Int.ofNat v)) else none
  | _ => (digitsVal s).bind fun v =>
      if v ≤ 2 ^ 63 - 1 then some (Int.ofNat v) else none

/-- Byte-lexicographic strict order on byte strings: the `Ord` instance
of `Bytes` that the stream `BTreeMap` uses on its keys. -/
def bytesLt : Bs → Bs → Bool
  | [], [] => false
  | [], _ :: _ => true
  | _ :: _, [] => false
  | a :: as, b :: bs => if a < b then true else if b < a then false else bytesLt as bs

namespace RespM

/-- Tagged protocol value (`RedisValueRef` in src/resp.rs). -/
inductive RedisValueRef where
  | string (s : Bs)
  | error (s : Bs)
  | int (i : Int)
  | array (xs : List RedisValueRef)
  | bulkString (s : Bs)
  | nullArray
  | nullBulkString
  | errorMsg (s : Bs)

/-- Half-open slice `buf[lo..hi]` into the frame buffer (`BufSplit`). -/
structure BufSplit where
  lo : Nat
  hi : Nat

/-- Decoder intermediate value (`RedisBufSplit`). -/
inductive RedisBufSplit where
  | string (b : BufSplit)
  | error (b : BufSplit)
  | int (i : Int)
  | array (xs : List RedisBufSplit)
  | nullArray
  | nullBulkString

/-- Decode errors (`RESPError`).  The `IOError` variant cannot arise
during pure decoding and is omitted; `panicIndexOutOfRange` models the
source expression `buf[pos]`, which panics when `pos` is out of range. -/
inductive RESPError where
  | unexpectedEnd
  | unknownStartingByte
  | intParseFailure
  | badBulkStringSize (i : Int)
  | badArraySize (i : Int)
  | panicIndexOutOfRange
deriving DecidableEq

/-- Result of one incremental parse step: an error, `ok none` for "need
more bytes", or the end position and the parsed intermediate value. -/
abbrev RedisResult := Except RESPError (Option (Nat × RedisBufSplit))

/-- Model of `word`: find the next `\r` at or after `pos` and return the
position just past the following byte together with the slice up to the
`\r`.  The guard `e + 1 < buf.length` (with `e` relative to `pos`)
mirrors the source check `end + 1 < buf.len()` verbatim. -/
def word (buf : Bs) (pos : Nat) : Option (Nat × BufSplit) :=
  if buf.length ≤ pos then none
  else
    match (buf.drop pos).findIdx? (fun b => b == 13) with
    | none => none
    | some e => if e + 1 < buf.length then some (pos + e + 2, ⟨pos, pos + e⟩) else none

/-- Bytes of a slice (`BufSplit::as_slice` / `as_bytes`). -/
def sliceBytes (buf : Bs) (b : BufSplit) : Bs := (buf.drop b.lo).take (b.hi - b.lo)

/-- Model of the `int` helper: take one word and parse it as `i64`; both
a UTF-8 failure and a numeric parse failure become `IntParseFailure`. -/
def intP (buf : Bs) (pos : Nat) : Except RESPError (Option (Nat × Int)) :=
  match word buf pos with
  | some pw =>
    match parseI64 (sliceBytes buf pw.2) with
    | some i => .ok (some (pw.1, i))
    | none => .error .intParseFailure
  | none => .ok none

/-- Model of `simple_string`. -/
def simpleString (buf : Bs) (pos : Nat) : RedisResult :=
  .ok ((word buf pos).map fun pw => (pw.1, .string pw.2))

/-- Model of `error`. -/
def errorVal (buf : Bs) (pos : Nat) : RedisResult :=
  .ok ((word buf pos).map fun pw => (pw.1, .error pw.2))

/-- Model of `resp_int`. -/
def respInt (buf : Bs) (pos : Nat) : RedisResult :=
  match intP buf pos with
  | .error e => .error e
  | .ok none => .ok none
  | .ok (some (p, i)) => .ok (some (p, .int i))

/-- Model of `bulk_string`: a size of `-1` is the null bulk string, a
size below `-1` is an error, and otherwise the payload plus trailing
`\r\n` must be present in full. -/
def bulkString (buf : Bs) (pos : Nat) : RedisResult :=
  match intP buf pos with
  | .error e => .error e
  | .ok none => .ok none
  | .ok (some (p, size)) =>
    if size = -1 then .ok (some (p, .nullBulkString))
    else if 0 ≤ size then
      let total := p + size.toNat
      if buf.length < total + 2 then .ok none
      else .ok (some (total + 2, .string ⟨p, total⟩))
    else .error (.badBulkStringSize size)

/-- Loop body of `array`: parse `k` further elements starting at `pos`,
with `rec` standing for the element parser. -/
def arrayElems (rec : Bs → Nat → RedisResult) (buf : Bs) :
    Nat → Nat → List RedisBufSplit → RedisResult
  | 0, pos, acc => .ok (some (pos, .array acc))
  | k + 1, pos, acc =>
    match rec buf pos with
    | .error e => .error e
    | .ok none => .ok none
    | .ok (some (p, v)) => arrayElems rec buf k p (acc ++ [v])

/-- One level of `parse`: dispatch on the leading sigil byte; `rec` is
the parser used on array elements. -/
def parseStep (rec : Bs → Nat → RedisResult) (buf : Bs) (pos : Nat) : RedisResult :=
  if buf.length = 0 then .ok none
  else
    match buf.get? pos with
    | none => .error .panicIndexOutOfRange
    | some b =>
      if b = 43 then simpleString buf (pos + 1)
      else if b = 45 then errorVal buf (pos + 1)
      else if b = 36 then bulkString buf (pos + 1)
      else if b = 58 then respInt buf (pos + 1)
      else if b = 42 then
        match intP buf (pos + 1) with
        | .error e => .error e
        | .ok none => .ok none
        | .ok (some (p, n)) =>
          if n = -1 then .ok (some (p, .nullArray))
          else if 0 ≤ n then arrayElems rec buf n.toNat p []
          else .error (.badArraySize n)
      else .error .unknownStartingByte

/-- Fuel-indexed `parse`; the fuel only bounds array nesting depth and
`decode` supplies more than any frame inside the buffer can need. -/
def parseR : Nat → Bs → Nat → RedisResult
  | 0, _, _ => .ok none
  | fuel + 1, buf, pos => parseStep (parseR fuel) buf pos

mutual
/-- Model of `RedisBufSplit::redis_value`: resolve slices against the
consumed frame bytes. -/
def redisValue (buf : Bs) : RedisBufSplit → RedisValueRef
  | .string b => .string (sliceBytes buf b)
  | .error b => .error (sliceBytes buf b)
  | .int i => .int i
  | .array xs => .array (redisValueList buf xs)
  | .nullArray => .nullArray
  | .nullBulkString => .nullBulkString
/-- Elementwise `redis_value` on array contents. -/
def redisValueList (buf : Bs) : List RedisBufSplit → List RedisValueRef
  | [] => []
  | x :: rest => redisValue buf x :: redisValueList buf rest
end

/-- Model of `Decoder::decode` for `RespParser`: one complete value and
the number of bytes consumed, or `ok none` when more bytes are needed. -/
def decode (buf : Bs) : Except RESPError (Option (Nat × RedisValueRef)) :=
  if buf = [] then .ok none
  else
    match parseR (buf.length + 2) buf 0 with
    | .error e => .error e
    | .ok none => .ok none
    | .ok (some (pos, v)) => .ok (some (pos, redisValue (buf.take pos) v))

mutual
/-- Model of `Encoder::encode` for `RespParser`.  The `array` arm
appends the length digits and then the encoded elements with no `\r\n`
after the length, exactly as the source does; the catch-all arm of the
source (reached by `ErrorMsg`) writes nothing. -/
def encode : RedisValueRef → Bs
  | .string s => 43 :: (s ++ [13, 10])
  | .error e => 45 :: (e ++ [13, 10])
  | .int i => 58 :: (intToBytes i ++ [13, 10])
  | .bulkString s => 36 :: (natToBytes s.length ++ [13, 10] ++ s ++ [13, 10])
  | .array xs => 42 :: (natToBytes xs.length ++ encodeList xs)
  | .nullBulkString => [36, 45, 49, 13, 10]
  | .nullArray => [42, 45, 49, 13, 10]
  | .errorMsg _ => []
/-- Concatenated encodings of array elements. -/
def encodeList : List RedisValueRef → Bs
  | [] => []
  | v :: rest => encode v ++ encodeList rest
end

end RespM

namespace ListsM

/-- List-store data map `HashMap<Bytes, VecDeque<Bytes>>`, as a function
from keys to an optional deque; `none` means the key is absent. -/
abbrev LState (α β : Type) := α → Option (List β)

variable {α β : Type} [DecidableEq α]

/-- Data mutation of `List::rpush`:
`lists.entry(key).or_insert_with(VecDeque::new).push_back(value)`. -/
def rpushOp (k : α) (v : β) (σ : LState α β) : LState α β :=
  fun q => if q = k then some (((σ k).getD []) ++ [v]) else σ q

/-- Data mutation of `List::lpush`: as `rpushOp` but pushing at the
front. -/
def lpushOp (k : α) (v : β) (σ : LState α β) : LState α β :=
  fun q => if q = k then some (v :: (σ k).getD []) else σ q

/-- Model of `List::lrange` on the deque stored at the key: normalise
the two indices and collect `(start..=end).filter_map(|i| list.get(i))`. -/
def lrange (l : List β) (start e : Int) : List β :=
  let len : Int := l.length
  if len = 0 then []
  else
    let s := if start < 0 then max (len + start) 0 else min start (len - 1)
    let t := if e < 0 then max (len + e) (-1) else min e (len - 1)
    if s > t ∨ t < 0 then []
    else (List.range (t - s + 1).toNat).filterMap fun i => l[s.toNat + i]?

/-- Model of `List::lrange` including the absent-key case. -/
def lrangeOp (k : α) (start e : Int) (σ : LState α β) : List β :=
  match σ k with
  | none => []
  | some l => lrange l start e

/-- Normalisation of LRANGE indices exactly as the claim words it:
negatives map to `len + idx`, start clamps to `0`, end clamps to
`len - 1`, and the result is empty when the normalised start exceeds
the normalised end.  Written from the claim, to be compared with
`lrange` above. -/
def lrangeClaimed (l : List β) (start e : Int) : List β :=
  let len : Int := l.length
  let s := max (if start < 0 then len + start else start) 0
  let t := min (if e < 0 then len + e else e) (len - 1)
  if s > t then []
  else (List.range (t - s + 1).toNat).filterMap fun i => l[s.toNat + i]?

/-- LRANGE slice under the amended normalisation: negatives map to
`len + idx`; a non-negative start is additionally clamped down to
`len - 1` and a negative-mapped start up to `0`; a non-negative end is
clamped down to `len - 1` and a negative-mapped end up to `-1`; the
result is empty when the normalised start exceeds the normalised end or
the normalised end is negative, and otherwise it is the contiguous
slice from start to end inclusive. -/
def lrangeAmended (l : List β) (start e : Int) : List β :=
  let len : Int := l.length
  if len = 0 then []
  else
    let s := if start < 0 then max (len + start) 0 else min start (len - 1)
    let t := if e < 0 then max (len + e) (-1) else min e (len - 1)
    if s > t ∨ t < 0 then []
    else (l.drop s.toNat).take (t - s + 1).toNat

/-- Model of `List::lpop`: pop up to `count` elements from the head,
removing the key when the deque empties; `none` when the key is absent
or its deque is empty. -/
def lpopOp (k : α) (count : Nat) (σ : LState α β) : Option (List β) × LState α β :=
  match σ k with
  | none => (none, σ)
  | some l =>
    if l.isEmpty then (none, σ)
    else
      (some (l.take count),
        fun q =>
          if q = k then (if (l.drop count).isEmpty then none else some (l.drop count)) else σ q)

/-- Data mutation of `List::blpop` when a value is available — both the
immediate pop and the retry after a notification take this exact shape:
pop one element from the head and drop the key if the deque empties. -/
def blpopPop (k : α) (σ : LState α β) : Option β × LState α β :=
  match σ k with
  | some (v :: rest) =>
    (some v, fun q => if q = k then (if rest.isEmpty then none else some rest) else σ q)
  | _ => (none, σ)

/-- Presence invariant of the list store: a key is present in the map
iff its deque is non-empty. -/
def PresentIffNonempty (σ : LState α β) : Prop :=
  ∀ k : α, (σ k).isSome ↔ (σ k).getD [] ≠ []

/-- Waiter queue for one key, front first; `true` is a live notifier
(send succeeds), `false` one whose receiver end is closed (send fails). -/
abbrev WaiterQueue := List Bool

/-- Notification step of `List::rpush` / `List::lpush`: pop waiters
from the front until a send succeeds.  Returns whether a live waiter
was signalled, and the remaining queue. -/
def listNotify : WaiterQueue → Bool × WaiterQueue
  | [] => (false, [])
  | false :: rest => listNotify rest
  | true :: rest => (true, rest)

end ListsM

namespace StreamsM

/-- Stream entry identifiers as stored: the raw byte-string pair
`(ms, seq)`. -/
abbrev SId := Bs × Bs

/-- Ordering of `(Bytes, Bytes)` keys in the source `BTreeMap`:
byte-lexicographic on the first component, ties broken by the second. -/
def idLtB (x y : SId) : Bool :=
  bytesLt x.1 y.1 || (x.1 == y.1 && bytesLt x.2 y.2)

/-- Field map of one entry (`BTreeMap<Bytes, Bytes>`), kept sorted by
byte order of the field name. -/
abbrev Fields := List (Bs × Bs)

/-- Sorted insert into a field map; an existing field is overwritten
(`BTreeMap::insert`, last write wins). -/
def fieldsInsert : Fields → Bs → Bs → Fields
  | [], k, v => [(k, v)]
  | (k1, v1) :: rest, k, v =>
    if k == k1 then (k, v) :: rest
    else if bytesLt k k1 then (k, v) :: (k1, v1) :: rest
    else (k1, v1) :: fieldsInsert rest k v

/-- Field insertion loop of `Stream::xadd`
(`for i in (0..kv.len()).step_by(2)`): inserts the pairs
`kv[i], kv[i + 1]`; an odd number of arguments makes `kv[i + 1]` index
out of range, which panics. -/
def insertPairs : List Bs → Fields → PResult Fields
  | [], m => .ok m
  | [_], _ => .panicked
  | k :: v :: rest, m => insertPairs rest (fieldsInsert m k v)

/-- Entries of one stream (`StreamKV.map`): association list kept
sorted ascending in the `BTreeMap` key order `idLtB`. -/
abbrev StreamEntries := List (SId × Fields)

/-- Model of `stream.map.entry(id).or_insert(BTreeMap::new())`: sorted
insert of a fresh empty entry when the id is absent. -/
def entryOrInsert : StreamEntries → SId → StreamEntries
  | [], i => [(i, [])]
  | (i1, f) :: rest, i =>
    if i == i1 then (i1, f) :: rest
    else if idLtB i i1 then (i, []) :: (i1, f) :: rest
    else (i1, f) :: entryOrInsert rest i

/-- Apply the field-insert loop to the entry at `id`
(`stream.map.get_mut`). -/
def applyKV : StreamEntries → SId → List Bs → PResult StreamEntries
  | [], _, _ => .ok []
  | (i1, f) :: rest, i, kv =>
    if i == i1 then
      match insertPairs kv f with
      | .panicked => .panicked
      | .ok f1 => .ok ((i1, f1) :: rest)
    else
      match applyKV rest i kv with
      | .panicked => .panicked
      | .ok rest1 => .ok ((i1, f) :: rest1)

/-- Model of `BTreeMap::last_key_value`: the greatest key in the map
order, which is the last element of the ascending association list. -/
def lastKeyValue (s : StreamEntries) : Option (SId × Fields) := s.getLast?

/-- Unwrapped `u64` parse, used where the source calls `.unwrap()` on
byte strings that are digit strings by construction; the default `0` is
never reached in the modelled traces. -/
def parseU64D (s : Bs) : Nat := (parseU64 s).getD 0

/-- Rejections produced by `Stream::validate_key` / `Stream::xadd`.
`invalidId` carries the message "ERR Invalid stream ID specified as
stream command argument", `idZero` the message "ERR The ID specified in
XADD must be greater than 0-0", and `idNotGreater` the message "ERR The
ID specified in XADD is equal or smaller than the target stream top
item". -/
inductive XaddErr where
  | invalidId
  | idZero
  | idNotGreater
deriving DecidableEq

/-- Model of `Stream::validate_key` for a fully specified id: parse
both components as `u64`, reject `0-0`, and compare numerically against
the entry returned by `last_key_value` (the greatest key in BYTE order). -/
def validateKey (s : StreamEntries) (tsS seqS : Bs) : Option XaddErr :=
  match parseU64 tsS, parseU64 seqS with
  | some t, some q =>
    if t = 0 ∧ q = 0 then some .idZero
    else
      match lastKeyValue s with
      | some (li, _) =>
        match parseU64 li.1, parseU64 li.2 with
        | some lt, some lq =>
          if t < lt ∨ (t = lt ∧ q ≤ lq) then some .idNotGreater else none
        | _, _ => none
      | none => none
  | _, _ => some .invalidId

/-- Model of `Stream::generate_id` with a user-supplied `ms` part
(`ms-*`). -/
def generateIdWithTs (s : StreamEntries) (curTs : Bs) : SId :=
  match lastKeyValue s with
  | some (li, _) =>
    if curTs == li.1 then (curTs, natToBytes (parseU64D li.2 + 1))
    else (curTs, [48])
  | none => if parseU64D curTs = 0 then (curTs, [49]) else (curTs, [48])

/-- Model of `Stream::generate_id` with full auto-generation (`*`);
`nowMs` is the wall clock in milliseconds. -/
def generateIdAuto (nowMs : Nat) (s : StreamEntries) : SId :=
  match lastKeyValue s with
  | some (li, _) =>
    if nowMs > parseU64D li.1 then (natToBytes nowMs, [48])
    else (li.1, natToBytes (parseU64D li.2 + 1))
  | none => (natToBytes nowMs, [48])

/-- Split a stream id at the first `-` (`memchr(b'-', ...)`). -/
def splitDash (id : Bs) : Option (Bs × Bs) :=
  match id.findIdx? (fun b => b == 45) with
  | some i => some (id.take i, id.drop (i + 1))
  | none => none

/-- Model of `Stream::xadd` restricted to one stream's entries.
Returns the resulting id as its `(ms, seq)` byte-string pair (the
source formats it as `ms-seq`) or the rejection, together with the new
entries.  A fully specified id that fails validation returns early,
leaving the entries unchanged. -/
def xadd1 (nowMs : Nat) (s : StreamEntries) (id : Bs) (kv : List Bs) :
    PResult (Except XaddErr SId × StreamEntries) :=
  match splitDash id with
  | some (tsS, seqS) =>
    if tsS == [42] then
      let i := generateIdAuto nowMs s
      match applyKV (entryOrInsert s i) i kv with
      | .panicked => .panicked
      | .ok s1 => .ok (.ok i, s1)
    else if seqS == [42] then
      let i := generateIdWithTs s tsS
      match applyKV (entryOrInsert s i) i kv with
      | .panicked => .panicked
      | .ok s1 => .ok (.ok i, s1)
    else
      match validateKey s tsS seqS with
      | some e => .ok (.error e, s)
      | none =>
        match applyKV (entryOrInsert s (tsS, seqS)) (tsS, seqS) kv with
        | .panicked => .panicked
        | .ok s1 => .ok (.ok (tsS, seqS), s1)
  | none =>
    if id == [42] then
      let i := generateIdAuto nowMs s
      match applyKV (entryOrInsert s i) i kv with
      | .panicked => .panicked
      | .ok s1 => .ok (.ok i, s1)
    else .ok (.error .invalidId, s)

/-- Numeric reading of a stored id: `(ms, seq)` as unsigned integers. -/
def idNum (i : SId) : Nat × Nat := (parseU64D i.1, parseU64D i.2)

/-- Lexicographic order on numeric `(ms, seq)` pairs — the order the
specification requires of stream ids. -/
def idNumLt (x y : Nat × Nat) : Bool := x.1 < y.1 || (x.1 == y.1 && x.2 < y.2)

/-- Filtering loop of `Stream::xrange`: emit entries within the numeric
bounds in map-iteration (byte) order, and `break` as soon as an entry
is numerically past the end bound.  Each result is the formatted id
`ms-seq` with the entry's fields. -/
def xrangeLoop (sT sQ eT eQ : Nat) : StreamEntries → List (Bs × Fields)
  | [] => []
  | (i, f) :: rest =>
    let t := parseU64D i.1
    let q := parseU64D i.2
    if (t > sT ∨ (t = sT ∧ q ≥ sQ)) ∧ (t < eT ∨ (t = eT ∧ q ≤ eQ)) then
      (i.1 ++ 45 :: i.2, f) :: xrangeLoop sT sQ eT eQ rest
    else if t > eT ∨ (t = eT ∧ q > eQ) then []
    else xrangeLoop sT sQ eT eQ rest

/-- Model of `Stream::xrange` on one stream's entries: `-` is the
minimum bound `(0, 0)`, `+` the maximum bound `(u64::MAX, u64::MAX)`,
and any other bound splits at the first `-`; an unsplittable bound
yields the empty result.  The source parses the bound strings inside
the loop with `.unwrap()`; the modelled traces keep them numeric. -/
def xrange1 (s : StreamEntries) (start e : Bs) : List (Bs × Fields) :=
  match if start == [45] then some (([48] : Bs), ([48] : Bs)) else splitDash start with
  | none => []
  | some (sts, ssq) =>
    match if e == [43] then some (natToBytes (2 ^ 64 - 1), natToBytes (2 ^ 64 - 1))
          else splitDash e with
    | none => []
    | some (ets, esq) =>
      xrangeLoop (parseU64D sts) (parseU64D ssq) (parseU64D ets) (parseU64D esq) s

/-- Notification step of `Stream::xadd`: pop only the front waiter and
send to it, ignoring the send result (`let _ = notifier.send(true)`).
Returns whether a live waiter was signalled, and the remaining queue. -/
def xaddNotify : ListsM.WaiterQueue → Bool × ListsM.WaiterQueue
  | [] => (false, [])
  | w :: rest => (w, rest)

end StreamsM

namespace RdbM

/-- RDB expiry attribute (`Expiry`): an absolute Unix timestamp in
seconds or in milliseconds. -/
inductive Expiry where
  | seconds (s : Nat)
  | milliseconds (ms : Nat)

/-- Model of `Expiry::to_instant`: the wall-clock target in Unix
milliseconds is compared with the current wall clock `nowUnixMs`; a
future target becomes the monotonic deadline
`nowMono + (target - nowUnixMs)`, while a target at or before now
yields `none` (already expired). -/
def toInstant (nowUnixMs nowMono : Nat) (e : Expiry) : Option Nat :=
  let target := match e with
    | .seconds s => 1000 * s
    | .milliseconds ms => ms
  if target ≤ nowUnixMs then none
  else some (nowMono + (target - nowUnixMs))

/-- An RDB entry as handed to the loader (`KeyValuePair` with a string
value). -/
structure KeyValuePair where
  key : Bs
  value : Bs
  expire : Option Expiry

/-- Key-value store contents: key to (value, optional monotonic
deadline in milliseconds). -/
abbrev KVState := List (Bs × (Bs × Option Nat))

/-- Map insert with overwrite (`HashMap::insert`). -/
def kvInsert (σ : KVState) (k : Bs) (v : Bs × Option Nat) : KVState :=
  match σ with
  | [] => [(k, v)]
  | (k1, v1) :: rest => if k == k1 then (k, v) :: rest else (k1, v1) :: kvInsert rest k v

/-- Per-entry step of `KeyValue::load_from_rdb`: convert the expiry via
`to_instant` and insert when
`expiry.is_none() || expiry.map_or(true, |exp| Instant::now() < exp)`
holds — the source condition verbatim. -/
def loadEntry (nowUnixMs nowMono : Nat) (e : KeyValuePair) (σ : KVState) : KVState :=
  let expiry := e.expire.bind (toInstant nowUnixMs nowMono)
  if expiry.isNone || expiry.all (fun d => decide (nowMono < d)) then
    kvInsert σ e.key (e.value, expiry)
  else σ

/-- Entry loop of `KeyValue::load_from_rdb` over one database. -/
def loadFromRdb (nowUnixMs nowMono : Nat) (es : List KeyValuePair) (σ : KVState) : KVState :=
  es.foldl (fun acc e => loadEntry nowUnixMs nowMono e acc) σ

/-- Deadline stored by `KeyValue::insert_entry`, on the monotonic clock
in milliseconds: the source computes `Instant::now() + duration` with
the duration selected by the option token (`EX` seconds, `PX`
milliseconds, `EXAT` seconds, `PXAT` milliseconds, anything else zero);
`time as u64` wraps negative inputs. -/
def insertEntryDeadline (nowMono : Nat) (expiry : Option (Bs × Int)) : Option Nat :=
  match expiry with
  | none => none
  | some (tok, time) =>
    let t : Nat := (time % (2 ^ 64 : Int)).toNat
    if tok = [69, 88] then some (nowMono + 1000 * t)
    else if tok = [80, 88] then some (nowMono + t)
    else if tok = [69, 88, 65, 84] then some (nowMono + 1000 * t)
    else if tok = [80, 88, 65, 84] then some (nowMono + t)
    else some (nowMono + 0)

/-- Model of `KeyValue::insert_entry`: unconditional overwrite of the
key with the computed deadline. -/
def insertEntry (nowMono : Nat) (k v : Bs) (expiry : Option (Bs × Int)) (σ : KVState) : KVState :=
  kvInsert σ k (v, insertEntryDeadline nowMono expiry)

/-- Wall-clock time (Unix milliseconds) at which a stored monotonic
deadline fires, given the clock correspondence at the moment of the
call. -/
def wallOfDeadline (nowUnixMs nowMono d : Nat) : Int :=
  (nowUnixMs : Int) + ((d : Int) - (nowMono : Int))

end RdbM

namespace CommandsM

/-- Argument conversion of the dispatcher `parse_command` for `LRANGE`:
the source runs `parse::<isize>().unwrap()` on both index strings, so a
non-numeric index panics instead of producing an error value. -/
def lrangeParseArgs (start e : Bs) : PResult (Int × Int) :=
  match parseI64 start, parseI64 e with
  | some s, some t => .ok (s, t)
  | _, _ => .panicked

/-- Timeout translation of the dispatcher for `BLPOP` (seconds; the
source parses `f64`, which is exact on the integer inputs modelled
here): zero becomes 86400 seconds.  Result in milliseconds. -/
def blpopTimeoutMs (t : Nat) : Nat := if t = 0 then 86400 * 1000 else t * 1000

/-- Timeout translation of the dispatcher for blocking `XREAD` (the
`BLOCK` argument, milliseconds): zero becomes
`Duration::from_millis(86400)`. -/
def xreadTimeoutMs (t : Nat) : Nat := if t = 0 then 86400 else t

end CommandsM

/-- Collecting the optional elements at positions `0, ..., n - 1` is the
`take` of the first `n` elements. -/
theorem filterMap_range_getElem {β : Type} (m : List β) (n : Nat) :
    (List.range n).filterMap (fun i => m[i]?) = m.take n := by
  induction n with
  | zero => simp
  | succ n ih =>
    rw [List.range_succ, List.filterMap_append, ih, List.take_succ]
    cases hm : m[n]? <;> simp [List.filterMap_cons, hm]

/-- The `lrange` index loop produces exactly the contiguous slice of the
deque described by `lrangeAmended`. -/
theorem lrange_eq_lrangeAmended {β : Type} (l : List β) (start e : Int) :
    ListsM.lrange l start e = ListsM.lrangeAmended l start e := by
  unfold ListsM.lrange ListsM.lrangeAmended
  simp only [← List.getElem?_drop, filterMap_range_getElem]

/-- Dropping all but the last element of a non-empty list leaves exactly
its last element. -/
theorem drop_length_sub_one_eq_getLast {β : Type} :
    (l : List β) → (h : l ≠ []) → l.drop (l.length - 1) = [l.getLast h]
  | [_], _ => rfl
  | a :: b :: t, _ => by
    have hne : (b :: t) ≠ [] := by simp
    have h2 : (a :: b :: t).length - 1 = (b :: t).length - 1 + 1 := by simp
    rw [h2, List.drop_succ_cons, drop_length_sub_one_eq_getLast (b :: t) hne,
      List.getLast_cons hne]

/-- Evaluation of the amended LRANGE slice at `start = -1, end = -1` on
a non-empty list: exactly the last element. -/
theorem lrangeAmended_neg_one {β : Type} (l : List β) (h : l ≠ []) :
    ListsM.lrangeAmended l (-1) (-1) = [l.getLast h] := by
  have hlen : 0 < l.length := List.length_pos.mpr h
  have hL0 : ((l.length : Int)) ≠ 0 := Int.natCast_ne_zero.mpr hlen.ne'
  have hneg : ((-1 : Int) < 0) := by norm_num
  have hmax1 : max ((l.length : Int) + -1) 0 = (l.length : Int) + -1 := by
    apply max_eq_left; omega
  have hmax2 : max ((l.length : Int) + -1) (-1) = (l.length : Int) + -1 := by
    apply max_eq_left; omega
  have hcond : ¬(((l.length : Int) + -1 > (l.length : Int) + -1) ∨
      ((l.length : Int) + -1 < 0)) := by omega
  unfold ListsM.lrangeAmended
  dsimp only
  rw [if_neg hL0, if_pos hneg, if_pos hneg, hmax1, hmax2, if_neg hcond]
  have h1 : ((l.length : Int) + -1 - ((l.length : Int) + -1) + 1).toNat = 1 := by omega
  have h2 : ((l.length : Int) + -1).toNat = l.length - 1 := by omega
  rw [h1, h2, drop_length_sub_one_eq_getLast l h]
  rfl

/-- Updating one key of a list-store state with either `none` or a
non-empty deque preserves the presence invariant. -/
theorem presentIffNonempty_update {α β : Type} [DecidableEq α] (σ : ListsM.LState α β)
    (h : ListsM.PresentIffNonempty σ) (k : α) (o : Option (List β))
    (ho : ∀ l, o = some l → l ≠ []) :
    ListsM.PresentIffNonempty (fun q => if q = k then o else σ q) := by
  intro q
  by_cases hq : q = k
  · subst hq
    simp only [if_pos rfl]
    cases o with
    | none => simp
    | some l => simp [ho l rfl]
  · simp only [if_neg hq]
    exact h q

/-- The push-side notification loop of the list store signals a waiter
iff a live one is somewhere in the queue. -/
theorem listNotify_signals_iff (q : ListsM.WaiterQueue) :
    (ListsM.listNotify q).1 = true ↔ true ∈ q := by
  induction q with
  | nil => simp [ListsM.listNotify]
  | cons w rest ih => cases w <;> simp [ListsM.listNotify, ih]

/-- The push-side notification loop leaves the queue after the first
live waiter, with every leading closed waiter discarded. -/
theorem listNotify_rest (q : ListsM.WaiterQueue) :
    (ListsM.listNotify q).2 = (q.dropWhile (fun w => w == false)).tail := by
  induction q with
  | nil => rfl
  | cons w rest ih => cases w <;> simp [ListsM.listNotify, ih]

/-- Claim C1: for every value of the codec's value model, decoding the
bytes produced by encoding it yields exactly that value, consuming
exactly those bytes.  This fails: the encoder's array arm omits the
`\r\n` after the element count, so the six bytes produced for
`Array [Int 1]` — `*1:1\r\n` — make the decoder read `1:1` as the
array length and fail with `IntParseFailure` instead of returning the
value. -/
theorem C1_array_encode_not_redecodable :
    RespM.encode (.array [.int 1]) = [42, 49, 58, 49, 13, 10] ∧
    RespM.decode [42, 49, 58, 49, 13, 10] = .error .intParseFailure :=
  ⟨rfl, rfl⟩

/-- Claim C2: successful XADD ids are strictly increasing in the
numeric `(ms, seq)` order, and a fully specified id not strictly above
the stream's last id is rejected.  This fails: the `BTreeMap` orders
its `(Bytes, Bytes)` keys byte-lexicographically, so after `XADD 9-1`
and `XADD 10-1` the map's `last_key_value` is still `9-1` (`"10" <
"9"` as bytes); `XADD 9-2` is then validated against `9-1`, accepted,
and inserted, although `9-2` is numerically smaller than the
previously returned id `10-1`. -/
theorem C2_xadd_nonmonotone_id_accepted :
    StreamsM.xadd1 0 [] [57, 45, 49] [] = .ok (.ok ([57], [49]), [(([57], [49]), [])]) ∧
    StreamsM.xadd1 0 [(([57], [49]), [])] [49, 48, 45, 49] [] =
      .ok (.ok ([49, 48], [49]), [(([49, 48], [49]), []), (([57], [49]), [])]) ∧
    StreamsM.xadd1 0 [(([49, 48], [49]), []), (([57], [49]), [])] [57, 45, 50] [] =
      .ok (.ok ([57], [50]),
        [(([49, 48], [49]), []), (([57], [49]), []), (([57], [50]), [])]) ∧
    StreamsM.idNumLt (StreamsM.idNum ([49, 48], [49])) (StreamsM.idNum ([57], [50])) = false :=
  ⟨rfl, rfl, rfl, rfl⟩

/-- Claim C3: XRANGE returns exactly the entries between the bounds in
ascending numeric id order, and `- +` enumerates all ids ascending.
This fails on the same byte-ordered stream as C2: after successful
XADDs of `9-1` and `10-1`, `XRANGE - +` returns `10-1` before `9-1`
(numerically descending), and `XRANGE - 9-5` returns nothing at all —
the loop breaks at the byte-first entry `10-1` and never reaches
`9-1`, which lies inside the requested range. -/
theorem C3_xrange_order_and_break_violation :
    StreamsM.xrange1 [(([49, 48], [49]), []), (([57], [49]), [])] [45] [43] =
      [([49, 48, 45, 49], []), ([57, 45, 49], [])] ∧
    StreamsM.xrange1 [(([49, 48], [49]), []), (([57], [49]), [])] [45] [57, 45, 53] = [] ∧
    StreamsM.idNumLt (StreamsM.idNum ([57], [49])) (StreamsM.idNum ([49, 48], [49])) = true :=
  ⟨rfl, rfl, rfl⟩

/-- Claim C4: SET with `EXAT` sets the deadline to the absolute Unix
time in seconds (`PXAT` in milliseconds).  This fails: the source
computes `Instant::now() + Duration::from_secs(time)`, i.e. it treats
the timestamp as a duration from now exactly like `EX`, so the stored
deadline depends on the call instant — `EXAT 5` called at monotonic 0
and at monotonic 1000 yields deadlines 5000 and 6000, and at Unix time
2000 ms the first fires at wall-clock 7000 ms, not at the absolute
target 5000 ms.  The `EX`, `PX` and unknown-token arms behave as
claimed. -/
theorem C4_exat_deadline_relative_not_absolute :
    RdbM.insertEntryDeadline 0 (some ([69, 88, 65, 84], 5)) = some 5000 ∧
    RdbM.insertEntryDeadline 1000 (some ([69, 88, 65, 84], 5)) = some 6000 ∧
    RdbM.wallOfDeadline 2000 0 5000 = 7000 ∧ (7000 : Int) ≠ 1000 * 5 ∧
    RdbM.insertEntryDeadline 100 (some ([69, 88], 2)) = some 2100 ∧
    RdbM.insertEntryDeadline 100 (some ([80, 88], 2)) = some 102 ∧
    RdbM.insertEntryDeadline 100 (some ([88, 88], 2)) = some 100 :=
  ⟨rfl, rfl, rfl, by decide, rfl, rfl, rfl⟩

/-- Claim C5: malformed argument shapes never panic the engine but come
back as error values.  This fails: the dispatcher converts LRANGE
indices with `parse::<isize>().unwrap()`, so the non-numeric index
`a` panics the connection task, and `Stream::xadd` indexes `kv[i + 1]`,
so an odd number of XADD field/value arguments panics instead of being
reported. -/
theorem C5_dispatcher_panics_on_malformed_args :
    CommandsM.lrangeParseArgs [97] [49] = .panicked ∧
    StreamsM.insertPairs [[102]] [] = .panicked :=
  ⟨rfl, rfl⟩

/-- Claim C6 counterexample: under the claim's normalisation (map
negatives to `len + idx`, clamp start to 0, clamp end to `len - 1`,
empty when start exceeds end) the call `LRANGE k 5 5` on the
one-element list `[0]` would be empty (5 > 0), but the source clamps
the non-negative start down to `len - 1` as well and returns the last
element. -/
theorem C6_lrange_counterexample :
    ListsM.lrange [0] 5 5 = ([0] : List Nat) ∧
    ListsM.lrangeClaimed [0] 5 5 = ([] : List Nat) :=
  ⟨rfl, rfl⟩

/-- Claim C6 as amended: LRANGE maps a negative index to `len + idx`;
a non-negative start is clamped down to `len - 1` and a negative-mapped
start up to 0; a non-negative end is clamped down to `len - 1` and a
negative-mapped end up to -1; the result is empty when the normalised
start exceeds the normalised end or the normalised end is negative, and
otherwise it is the contiguous inclusive slice; in particular
`start = -1, end = -1` on a non-empty list returns exactly the single
last element. -/
theorem C6_lrange_normalisation_amended {β : Type} (l : List β) (start e : Int)
    (h : l ≠ []) :
    ListsM.lrange l start e = ListsM.lrangeAmended l start e ∧
    ListsM.lrange l (-1) (-1) = [l.getLast h] := by
  constructor
  · exact lrange_eq_lrangeAmended l start e
  · rw [lrange_eq_lrangeAmended]
    exact lrangeAmended_neg_one l h

/-- Witness for the C6 amended theorem at the concrete list `[3, 7]`. -/
theorem C6_lrange_normalisation_amended_witness :
    ListsM.lrange [3, 7] 5 1 = ListsM.lrangeAmended [3, 7] 5 1 ∧
    ListsM.lrange [3, 7] (-1) (-1) = [List.getLast [3, 7] (by simp)] :=
  C6_lrange_normalisation_amended [3, 7] 5 1 (by simp)

/-- Claim C7: after every completed LPUSH, RPUSH, LPOP or BLPOP call, a
key is present in the list map iff its deque is non-empty.  Each of the
four data mutations preserves the invariant: pushes store a non-empty
deque, and both pop paths remove the key whenever the deque empties. -/
theorem C7_list_presence_invariant {α β : Type} [DecidableEq α] (σ : ListsM.LState α β)
    (h : ListsM.PresentIffNonempty σ) (k : α) (v : β) (c : Nat) :
    ListsM.PresentIffNonempty (ListsM.rpushOp k v σ) ∧
    ListsM.PresentIffNonempty (ListsM.lpushOp k v σ) ∧
    ListsM.PresentIffNonempty (ListsM.lpopOp k c σ).2 ∧
    ListsM.PresentIffNonempty (ListsM.blpopPop k σ).2 := by
  refine ⟨?_, ?_, ?_, ?_⟩
  · exact presentIffNonempty_update σ h k _ (by intro l hl; cases hl; simp)
  · exact presentIffNonempty_update σ h k _ (by intro l hl; cases hl; simp)
  · rcases hsk : σ k with _ | l
    · simpa [ListsM.lpopOp, hsk] using h
    · by_cases hl : l.isEmpty
      · simpa [ListsM.lpopOp, hsk, hl] using h
      · have h2 : (ListsM.lpopOp k c σ).2 = fun q =>
            if q = k then (if (l.drop c).isEmpty then none else some (l.drop c)) else σ q := by
          simp [ListsM.lpopOp, hsk, hl]
        rw [h2]
        apply presentIffNonempty_update σ h k
        intro l2 hl2
        by_cases hd : (l.drop c).isEmpty
        · simp [hd] at hl2
        · simp [hd] at hl2
          subst hl2
          simpa [List.isEmpty_iff] using hd
  · rcases hsk : σ k with _ | (_ | ⟨v0, rest⟩)
    · simpa [ListsM.blpopPop, hsk] using h
    · simpa [ListsM.blpopPop, hsk] using h
    · have h2 : (ListsM.blpopPop k σ).2 = fun q =>
          if q = k then (if rest.isEmpty then none else some rest) else σ q := by
        simp [ListsM.blpopPop, hsk]
      rw [h2]
      apply presentIffNonempty_update σ h k
      intro l2 hl2
      by_cases hd : rest.isEmpty
      · simp [hd] at hl2
      · simp [hd] at hl2
        subst hl2
        simpa [List.isEmpty_iff] using hd

/-- Witness for C7 starting from the empty list store over `Nat` keys
and values. -/
theorem C7_list_presence_invariant_witness :
    ListsM.PresentIffNonempty (ListsM.rpushOp 0 5 (fun _ => none : ListsM.LState Nat Nat)) ∧
    ListsM.PresentIffNonempty (ListsM.lpushOp 0 5 (fun _ => none : ListsM.LState Nat Nat)) ∧
    ListsM.PresentIffNonempty (ListsM.lpopOp 0 2 (fun _ => none : ListsM.LState Nat Nat)).2 ∧
    ListsM.PresentIffNonempty (ListsM.blpopPop 0 (fun _ => none : ListsM.LState Nat Nat)).2 :=
  C7_list_presence_invariant (fun _ => none) (by simp [ListsM.PresentIffNonempty]) 0 5 2

/-- Claim C8 counterexample: the claim says a zero timeout becomes a
24-hour duration for blocking XREAD as well, but the dispatcher maps a
zero `BLOCK` argument to `Duration::from_millis(86400)` — 86.4
seconds, not 24 hours (86 400 000 ms). -/
theorem C8_xread_zero_timeout_counterexample :
    CommandsM.xreadTimeoutMs 0 = 86400 ∧ (86400 : Nat) ≠ 24 * 60 * 60 * 1000 :=
  ⟨rfl, by decide⟩

/-- Claim C8 as amended: a zero BLPOP timeout is translated to 86400
seconds (24 hours) and a zero blocking-XREAD timeout to 86400
milliseconds; in both cases the store receives a finite, non-zero
duration. -/
theorem C8_zero_timeout_amended (t : Nat) :
    CommandsM.blpopTimeoutMs 0 = 24 * 60 * 60 * 1000 ∧
    CommandsM.xreadTimeoutMs 0 = 86400 ∧
    0 < CommandsM.blpopTimeoutMs t ∧ 0 < CommandsM.xreadTimeoutMs t := by
  refine ⟨rfl, rfl, ?_, ?_⟩
  · unfold CommandsM.blpopTimeoutMs
    split <;> omega
  · unfold CommandsM.xreadTimeoutMs
    split <;> omega

/-- Claim C9: an RDB entry whose absolute expiry is already past is
skipped and not inserted in any form.  This fails: `to_instant` returns
`none` for an already-expired timestamp, and the loader's condition
`expiry.is_none() || ...` then holds, so the entry IS inserted — and
with no deadline at all, making the stale key permanent.  Here an entry
expiring at Unix 5 ms is loaded at Unix 10 ms and lands in the store
with `none` as its deadline. -/
theorem C9_expired_rdb_entry_inserted :
    RdbM.toInstant 10 0 (.milliseconds 5) = none ∧
    RdbM.loadFromRdb 10 0 [⟨[107], [118], some (.milliseconds 5)⟩] [] =
      [([107], ([118], none))] :=
  ⟨rfl, rfl⟩

/-- Claim C10 counterexample: on a waiter queue whose front notifier is
closed and whose second is live, the XADD notification step pops only
the closed front waiter and ignores the failed send, so no live waiter
is signalled although one remains queued — the claim says the closed
waiter is discarded and the live one signalled. -/
theorem C10_xadd_waiter_counterexample :
    StreamsM.xaddNotify [false, true] = (false, [true]) ∧ true ∈ [false, true] :=
  ⟨rfl, by simp⟩

/-- Claim C10 as amended: RPUSH/LPUSH discard closed waiters from the
front of the queue and signal the first live waiter, so their signal is
lost only when no live waiter is queued; XADD instead pops exactly the
front waiter and signals it only if it happens to be live, so a closed
front waiter does lose the signal for XADD. -/
theorem C10_waiter_notification_amended (q : ListsM.WaiterQueue) :
    ((ListsM.listNotify q).1 = true ↔ true ∈ q) ∧
    (ListsM.listNotify q).2 = (q.dropWhile (fun w => w == false)).tail ∧
    (StreamsM.xaddNotify q).2 = q.tail ∧
    ((StreamsM.xaddNotify q).1 = true ↔ q.head? = some true) := by
  refine ⟨listNotify_signals_iff q, listNotify_rest q, ?_, ?_⟩
  · cases q <;> rfl
  · cases q with
    | nil => simp [StreamsM.xaddNotify]
    | cons w rest => cases w <;> simp [StreamsM.xaddNotify]
